import Mathlib

/-!
Shallow embedding of DProfiler (src/DProfiler.h, src/DProfiler.cpp).

The profiler keeps, per thread, a tree of `DProfileSection` nodes.  In the
C++ the tree is built from heap nodes with raw `parent` back-pointers, a
`std::map<std::string, DProfileSection*> children` per node, and the
per-thread `DProfileContext` holds a `current` pointer into the tree.  Here
the tree is an inductive value; the `current` pointer is represented by the
path of labels from the root to the current node (a non-empty path
corresponds exactly to `parent != NULL`), and the `children` map by an
association list from label to child.

Times are exact rationals standing in for the C++ `double` / `DTime`
milliseconds; the clock is external (`DTime::SetNow`), so every operation
that samples the clock takes the sample as an explicit argument.

Global state modelled from DProfiler.cpp:
  * `contexts`    — the static registry `DProfiler::contexts` (line 26);
  * `endTime`     — the static `DTime DProfiler::end_time` (line 31,
                    header lines 146-147: "for efficiency: avoid
                    re-allocating"), written by every `SectionPop`;
  * `execCounter` — the static `DProfileSection::EXEC_ORDER_ID` (line 29).
The semaphore `lock` serialises registry access in C++; the model is the
sequential interleaving semantics, so it has no explicit lock.
-/

/-- A profile-tree node, from `class DProfileSection` (DProfiler.h
lines 157-189): `name`, `call_count`, `avg_time`, `exec_order_id`,
`timer` (start stamp), and the `children` map (label-keyed). -/
inductive DProfileSection : Type where
  | mk : String → Nat → ℚ → Nat → ℚ → List (String × DProfileSection) → DProfileSection

def DProfileSection.name : DProfileSection → String
  | .mk n _ _ _ _ _ => n

def DProfileSection.call_count : DProfileSection → Nat
  | .mk _ cc _ _ _ _ => cc

def DProfileSection.avg_time : DProfileSection → ℚ
  | .mk _ _ av _ _ _ => av

def DProfileSection.exec_order_id : DProfileSection → Nat
  | .mk _ _ _ id _ _ => id

def DProfileSection.timer : DProfileSection → ℚ
  | .mk _ _ _ _ tm _ => tm

def DProfileSection.children : DProfileSection → List (String × DProfileSection)
  | .mk _ _ _ _ _ ch => ch

/-- `DProfileSection::DProfileSection()` (DProfiler.cpp lines 164-170):
zero `call_count` and `avg_time`, fresh `exec_order_id` from the global
counter, no children.  The `timer` member is default-constructed; it is
modelled as 0 (it is overwritten before first use by `SectionPush`). -/
def mkSection (n : String) (id : Nat) : DProfileSection :=
  .mk n 0 0 id 0 []

/-- Set the start stamp, `timer.SetNow()` (DProfiler.cpp line 107). -/
def DProfileSection.setTimer : DProfileSection → ℚ → DProfileSection
  | .mk n cc av id _ ch, t => .mk n cc av id t ch

def DProfileSection.setChildren : DProfileSection → List (String × DProfileSection) → DProfileSection
  | .mk n cc av id tm _, ch => .mk n cc av id tm ch

/-- The running-mean update of `SectionPop` (DProfiler.cpp lines 134-136):
`total = time + avg * count; count += 1; avg = total / count` — the
post-increment on line 135 multiplies by the OLD count.  Polymorphic over
the arithmetic so it can be read over the exact reals of the specification;
the operational model instantiates it at `ℚ`. -/
def record {K : Type} [DivisionRing K] (cc : Nat) (av : K) (elapsed : K) : Nat × K :=
  let total := elapsed + av * (cc : K)
  let cc' := cc + 1
  (cc', total / (cc' : K))

/-- Apply `record` to a node's statistics (stats only: name, id, timer and
children untouched). -/
def DProfileSection.recordTime : DProfileSection → ℚ → DProfileSection
  | .mk n cc av id tm ch, elapsed =>
    let r := record cc av elapsed
    .mk n r.1 r.2 id tm ch

/-- Lookup in the `children` map (first entry with the given key;
`std::map` keys are unique so "first" is faithful). -/
def lookupChild : List (String × DProfileSection) → String → Option DProfileSection
  | [], _ => none
  | (k', c) :: rest, k => if k' = k then some c else lookupChild rest k

/-- Replace the value stored under key `k` (no-op if the key is absent),
modelling `children[name] = s` on an existing key. -/
def setChild : List (String × DProfileSection) → String → DProfileSection → List (String × DProfileSection)
  | [], _, _ => []
  | (k', c) :: rest, k, v => if k' = k then (k', v) :: rest else (k', c) :: setChild rest k v

/-- Lines 94-101 of DProfiler.cpp: `s = children[name]; if (s == NULL)
{ s = new DProfileSection(); s->parent = current; s->name = name;
children[name] = s; }`.  Returns the updated children map, the looked-up or
created child, and the exec-order counter (bumped when a node is created).
The parent back-pointer is implicit in the tree representation. -/
def getOrCreateChild (cs : List (String × DProfileSection)) (n : String) (cnt : Nat) :
    List (String × DProfileSection) × DProfileSection × Nat :=
  match lookupChild cs n with
  | some s => (cs, s, cnt)
  | none =>
    let s := mkSection n cnt
    (cs ++ [(n, s)], s, cnt + 1)

/-- Follow a label path from a node: `some` node if every label on the
path names an existing child.  Encodes pointer dereference of `current`. -/
def nodeAt? (s : DProfileSection) : List String → Option DProfileSection
  | [] => some s
  | k :: rest =>
    match lookupChild s.children k with
    | some c => nodeAt? c rest
    | none => none

/-- The tree mutation of `SectionPush` (DProfiler.cpp lines 92-107) at the
node addressed by `path`: get-or-create the child `n`, then stamp its
timer with the clock sample `t` (line 107 stamps `context->current`, the
child, after the descent).  Returns the new tree and exec counter. -/
def pushAt (s : DProfileSection) (path : List String) (n : String) (t : ℚ) (cnt : Nat) :
    DProfileSection × Nat :=
  match path with
  | [] =>
    let r := getOrCreateChild s.children n cnt
    (s.setChildren (setChild r.1 n (r.2.1.setTimer t)), r.2.2)
  | k :: rest =>
    match lookupChild s.children k with
    | some c =>
      let r := pushAt c rest n t cnt
      (s.setChildren (setChild s.children k r.1), r.2)
    | none => (s, cnt)

/-- Rewrite the node addressed by `path` through `f` (no-op on a dangling
path, which never arises from the public operations). -/
def modifyAt (s : DProfileSection) (path : List String) (f : DProfileSection → DProfileSection) :
    DProfileSection :=
  match path with
  | [] => f s
  | k :: rest =>
    match lookupChild s.children k with
    | some c => s.setChildren (setChild s.children k (modifyAt c rest f))
    | none => s

/-- The statistics update of `SectionPop` (DProfiler.cpp lines 130-136) at
the node addressed by `path`: elapsed = `end_time - timer`, then the
running-mean update. -/
def popAt (s : DProfileSection) (path : List String) (t : ℚ) : DProfileSection :=
  modifyAt s path (fun c => c.recordTime (t - c.timer))

/-- Per-thread context, `class DProfileContext` (DProfiler.h
lines 114-123).  `current` is the label path from `toplevel` to the
current section; `[]` means `current == toplevel` (whose `parent` is
`NULL`). -/
structure DProfileContext where
  threadId : Nat
  toplevel : DProfileSection
  current : List String

/-- The profiler's static state (DProfiler.cpp lines 26-31): the registry
`contexts`, the shared scratch `end_time`, and the global
`EXEC_ORDER_ID` counter. -/
structure ProfState where
  contexts : List DProfileContext
  endTime : ℚ
  execCounter : Nat

/-- Index of the first context whose thread matches, mirroring the linear
scan of `DProfiler::GetContext` (DProfiler.cpp lines 44-53). -/
def findCtxIdx (tid : Nat) : List DProfileContext → Option Nat
  | [] => none
  | c :: rest => if c.threadId = tid then some 0 else (findCtxIdx tid rest).map (· + 1)

namespace DProfiler

/-- `DProfiler::GetContext` (DProfiler.cpp lines 39-67): find the calling
thread's context; if none, create one (allocating a root section, which
consumes an exec-order id) and append it.  Returns the state and the index
of the context. -/
def GetContext (tid : Nat) (st : ProfState) : ProfState × Nat :=
  match findCtxIdx tid st.contexts with
  | some i => (st, i)
  | none =>
    let root := mkSection "" st.execCounter
    ({ st with
        contexts := st.contexts ++ [⟨tid, root, []⟩],
        execCounter := st.execCounter + 1 },
     st.contexts.length)

/-- `DProfiler::SectionPush` (DProfiler.cpp lines 87-110) with clock
sample `t` (consumed by `timer.SetNow()` at line 107). -/
def SectionPush (tid : Nat) (n : String) (t : ℚ) (st : ProfState) : ProfState :=
  let r := GetContext tid st
  let st1 := r.1
  match st1.contexts[r.2]? with
  | none => st1
  | some ctx =>
    let pr := pushAt ctx.toplevel ctx.current n t st1.execCounter
    { st1 with
        contexts := st1.contexts.set r.2 ⟨ctx.threadId, pr.1, ctx.current ++ [n]⟩,
        execCounter := pr.2 }

/-- `DProfiler::SectionPop` (DProfiler.cpp lines 113-142) with clock
sample `t`: first `end_time.SetNow()` (line 115, writing the STATIC
member), then `GetContext`, then the root guard (lines 122-123), then the
stats update and the ascent. -/
def SectionPop (tid : Nat) (t : ℚ) (st : ProfState) : ProfState :=
  let st0 := { st with endTime := t }
  let r := GetContext tid st0
  let st1 := r.1
  match st1.contexts[r.2]? with
  | none => st1
  | some ctx =>
    if ctx.current = [] then st1
    else
      { st1 with
          contexts := st1.contexts.set r.2
            ⟨ctx.threadId, popAt ctx.toplevel ctx.current st1.endTime, ctx.current.dropLast⟩ }

/-- `DProfiler::Clear` (DProfiler.cpp lines 71-85): empty the registry.
Neither `end_time` nor `EXEC_ORDER_ID` is reset. -/
def Clear (st : ProfState) : ProfState :=
  { st with contexts := [] }

end DProfiler

/-- The state at program start: empty registry, `EXEC_ORDER_ID = 0`
(DProfiler.cpp line 29), default `end_time`. -/
def initState : ProfState :=
  { contexts := [], endTime := 0, execCounter := 0 }

/-- A profiler call, tagged with the calling thread. -/
inductive Op : Type where
  | push : Nat → String → Op
  | pop : Nat → Op
  | clear : Op

/-- One call against a mock clock (a list of samples, consumed in order,
one per clock sample; push and pop each sample once, clear never). -/
def stepOp (st : ProfState) (ts : List ℚ) : Op → ProfState × List ℚ
  | .push tid n => (DProfiler.SectionPush tid n (ts.headD 0) st, ts.tail)
  | .pop tid => (DProfiler.SectionPop tid (ts.headD 0) st, ts.tail)
  | .clear => (DProfiler.Clear st, ts)

/-- Run a trace of calls against a mock clock. -/
def runTrace : List Op → ProfState → List ℚ → ProfState
  | [], st, _ => st
  | o :: os, st, ts =>
    let r := stepOp st ts o
    runTrace os r.1 r.2

/-- Observer: the context of a given thread, if registered. -/
def findCtx (tid : Nat) (st : ProfState) : Option DProfileContext :=
  match findCtxIdx tid st.contexts with
  | some i => st.contexts[i]?
  | none => none

/-- Observer: the label path of a thread's `current` pointer. -/
def ctxCurrent (tid : Nat) (st : ProfState) : Option (List String) :=
  (findCtx tid st).map (·.current)

/-- Observer: `(call_count, avg_time)` of the section at `path` in a
thread's tree. -/
def sectionStats (tid : Nat) (path : List String) (st : ProfState) : Option (Nat × ℚ) :=
  (findCtx tid st).bind fun c => (nodeAt? c.toplevel path).map fun s => (s.call_count, s.avg_time)

/-- Observer: does the registry hold a context for this thread? -/
def hasCtx (tid : Nat) (st : ProfState) : Bool :=
  (findCtxIdx tid st.contexts).isSome

/-! ### Basic simp lemmas for the accessors -/

@[simp] theorem DProfileSection.name_mk (n cc av id tm ch) :
    (DProfileSection.mk n cc av id tm ch).name = n := rfl

@[simp] theorem DProfileSection.call_count_mk (n cc av id tm ch) :
    (DProfileSection.mk n cc av id tm ch).call_count = cc := rfl

@[simp] theorem DProfileSection.avg_time_mk (n cc av id tm ch) :
    (DProfileSection.mk n cc av id tm ch).avg_time = av := rfl

@[simp] theorem DProfileSection.exec_order_id_mk (n cc av id tm ch) :
    (DProfileSection.mk n cc av id tm ch).exec_order_id = id := rfl

@[simp] theorem DProfileSection.timer_mk (n cc av id tm ch) :
    (DProfileSection.mk n cc av id tm ch).timer = tm := rfl

@[simp] theorem DProfileSection.children_mk (n cc av id tm ch) :
    (DProfileSection.mk n cc av id tm ch).children = ch := rfl

@[simp] theorem DProfileSection.setTimer_name (s : DProfileSection) (t : ℚ) :
    (s.setTimer t).name = s.name := by cases s; rfl

@[simp] theorem DProfileSection.setTimer_children (s : DProfileSection) (t : ℚ) :
    (s.setTimer t).children = s.children := by cases s; rfl

@[simp] theorem DProfileSection.setChildren_name (s : DProfileSection) (ch) :
    (s.setChildren ch).name = s.name := by cases s; rfl

@[simp] theorem DProfileSection.setChildren_children (s : DProfileSection) (ch) :
    (s.setChildren ch).children = ch := by cases s; rfl

@[simp] theorem DProfileSection.recordTime_name (s : DProfileSection) (d : ℚ) :
    (s.recordTime d).name = s.name := by cases s; rfl

@[simp] theorem DProfileSection.recordTime_children (s : DProfileSection) (d : ℚ) :
    (s.recordTime d).children = s.children := by cases s; rfl

/-! ### Children-map lemmas -/

theorem lookupChild_append_of_none {cs ds : List (String × DProfileSection)} {n : String}
    (h : lookupChild cs n = none) : lookupChild (cs ++ ds) n = lookupChild ds n := by
  induction cs with
  | nil => rfl
  | cons p rest ih =>
    obtain ⟨k', c⟩ := p
    by_cases hk : k' = n
    · simp [lookupChild, hk] at h
    · simp only [lookupChild, hk, if_neg, List.cons_append] at h ⊢
      exact ih h

theorem lookupChild_setChild_self {cs : List (String × DProfileSection)} {k : String}
    {c : DProfileSection} (h : lookupChild cs k = some c) (v : DProfileSection) :
    lookupChild (setChild cs k v) k = some v := by
  induction cs with
  | nil => simp [lookupChild] at h
  | cons p rest ih =>
    obtain ⟨k', c'⟩ := p
    by_cases hk : k' = k
    · simp [lookupChild, setChild, hk]
    · simp only [lookupChild, setChild, hk, if_neg] at h ⊢
      exact ih h

theorem lookupChild_setChild_ne {cs : List (String × DProfileSection)} {k k' : String}
    (h : k' ≠ k) (v : DProfileSection) :
    lookupChild (setChild cs k v) k' = lookupChild cs k' := by
  induction cs with
  | nil => rfl
  | cons p rest ih =>
    obtain ⟨k0, c0⟩ := p
    by_cases hk : k0 = k
    · subst hk
      simp [setChild, lookupChild, Ne.symm h]
    · simp only [setChild, hk, if_neg, lookupChild]
      by_cases hk' : k0 = k'
      · simp [hk']
      · simp [hk', ih]

theorem setChild_keys (cs : List (String × DProfileSection)) (k : String) (v : DProfileSection) :
    (setChild cs k v).map Prod.fst = cs.map Prod.fst := by
  induction cs with
  | nil => rfl
  | cons p rest ih =>
    obtain ⟨k0, c0⟩ := p
    by_cases hk : k0 = k
    · simp [setChild, hk]
    · simp [setChild, hk, ih]

theorem lookupChild_none_of_not_mem {cs : List (String × DProfileSection)} {n : String}
    (h : n ∉ cs.map Prod.fst) : lookupChild cs n = none := by
  induction cs with
  | nil => rfl
  | cons p rest ih =>
    obtain ⟨k0, c0⟩ := p
    simp only [List.map_cons, List.mem_cons] at h
    push_neg at h
    simp [lookupChild, Ne.symm h.1, ih h.2]

theorem not_mem_of_lookupChild_none {cs : List (String × DProfileSection)} {n : String}
    (h : lookupChild cs n = none) : n ∉ cs.map Prod.fst := by
  induction cs with
  | nil => simp
  | cons p rest ih =>
    obtain ⟨k0, c0⟩ := p
    by_cases hk : k0 = n
    · simp [lookupChild, hk] at h
    · simp only [lookupChild, if_neg hk] at h
      simp only [List.map_cons, List.mem_cons, not_or]
      exact ⟨fun hn => hk hn.symm, ih h⟩

theorem isSome_of_lookupChild_some {cs : List (String × DProfileSection)} {n : String}
    {c : DProfileSection} (h : lookupChild cs n = some c) : n ∈ cs.map Prod.fst := by
  by_contra hm
  rw [lookupChild_none_of_not_mem hm] at h
  exact Option.noConfusion h

/-! ### Registry (findCtxIdx) lemmas -/

theorem findCtxIdx_some_getElem {tid : Nat} :
    ∀ {l : List DProfileContext} {i : Nat}, findCtxIdx tid l = some i →
      ∃ c, l[i]? = some c ∧ c.threadId = tid := by
  intro l
  induction l with
  | nil => intro i h; simp [findCtxIdx] at h
  | cons c rest ih =>
    intro i h
    by_cases hc : c.threadId = tid
    · simp only [findCtxIdx, if_pos hc] at h
      cases h
      exact ⟨c, by simp, hc⟩
    · simp only [findCtxIdx, if_neg hc] at h
      cases hrec : findCtxIdx tid rest with
      | none => rw [hrec] at h; simp at h
      | some j =>
        rw [hrec] at h
        simp only [Option.map_some'] at h
        cases h
        obtain ⟨c', hc', ht⟩ := ih hrec
        exact ⟨c', by simpa using hc', ht⟩

theorem findCtxIdx_lt_length {tid : Nat} {l : List DProfileContext} {i : Nat}
    (h : findCtxIdx tid l = some i) : i < l.length := by
  obtain ⟨c, hc, -⟩ := findCtxIdx_some_getElem h
  exact (List.getElem?_eq_some_iff.mp hc).1

theorem findCtxIdx_set {tid : Nat} {c : DProfileContext} (hc : c.threadId = tid) :
    ∀ {l : List DProfileContext} {i : Nat}, findCtxIdx tid l = some i →
      findCtxIdx tid (l.set i c) = some i := by
  intro l
  induction l with
  | nil => intro i h; simp [findCtxIdx] at h
  | cons c0 rest ih =>
    intro i h
    by_cases h0 : c0.threadId = tid
    · simp only [findCtxIdx, if_pos h0] at h
      cases h
      simp [List.set, findCtxIdx, hc]
    · simp only [findCtxIdx, if_neg h0] at h
      cases hrec : findCtxIdx tid rest with
      | none => rw [hrec] at h; simp at h
      | some j =>
        rw [hrec] at h
        simp only [Option.map_some'] at h
        cases h
        simp [List.set, findCtxIdx, h0, ih hrec]

theorem findCtxIdx_append_singleton {tid : Nat} {c : DProfileContext} (hc : c.threadId = tid) :
    ∀ {l : List DProfileContext}, findCtxIdx tid l = none →
      findCtxIdx tid (l ++ [c]) = some l.length := by
  intro l
  induction l with
  | nil => intro _; simp [findCtxIdx, hc]
  | cons c0 rest ih =>
    intro h
    by_cases h0 : c0.threadId = tid
    · simp [findCtxIdx, h0] at h
    · simp only [findCtxIdx, if_neg h0] at h
      cases hrec : findCtxIdx tid rest with
      | some j => rw [hrec] at h; simp at h
      | none =>
        simp [findCtxIdx, h0, ih hrec, List.length_cons]

/-! ### The running-mean recurrence -/

theorem foldl_record_total {K : Type} [DivisionRing K] [CharZero K] :
    ∀ (ds : List K) (cc : Nat) (av : K),
      (ds.foldl (fun p d => record p.1 p.2 d) (cc, av)).1 = cc + ds.length ∧
      ((ds.foldl (fun p d => record p.1 p.2 d) (cc, av)).2) * ((cc + ds.length : Nat) : K)
        = av * (cc : K) + ds.sum := by
  intro ds
  induction ds with
  | nil =>
    intro cc av
    simp
  | cons d ds ih =>
    intro cc av
    have hstep : record cc av d = (cc + 1, (d + av * (cc : K)) / ((cc + 1 : Nat) : K)) := by
      simp [record]
    have hne : ((cc + 1 : Nat) : K) ≠ 0 := Nat.cast_ne_zero.mpr (Nat.succ_ne_zero cc)
    have hdiv : ((d + av * (cc : K)) / ((cc + 1 : Nat) : K)) * ((cc + 1 : Nat) : K)
        = d + av * (cc : K) := div_mul_cancel₀ _ hne
    obtain ⟨h1, h2⟩ := ih (cc + 1) ((d + av * (cc : K)) / ((cc + 1 : Nat) : K))
    constructor
    · simp only [List.foldl_cons, hstep, h1, List.length_cons]
      omega
    · simp only [List.foldl_cons, hstep, List.length_cons]
      have hlen : cc + (ds.length + 1) = (cc + 1) + ds.length := by omega
      rw [hlen, h2, hdiv, List.sum_cons]
      abel

/-! ### Concrete traces -/

/-- The spec's "Nested sections" scenario: clock samples 0, 1, 3, 4, 10
consumed in order, one per clock sample; trace
`push("outer"); push("inner"); pop(); pop();` on a fresh single-thread
profiler.  Each push and each pop samples the clock exactly once
(DProfiler.cpp lines 107 and 115), so the four calls consume 0, 1, 3, 4. -/
def c1State : ProfState :=
  runTrace [Op.push 0 "outer", Op.push 0 "inner", Op.pop 0, Op.pop 0] initState [0, 1, 3, 4, 10]

/-- The spec's "Pop past root is a no-op" scenario:
`pop(); pop(); push("X"); pop();` on a fresh profiler. -/
def c3State : ProfState :=
  runTrace [Op.pop 0, Op.pop 0, Op.push 0 "X", Op.pop 0] initState [0, 1, 2, 3]

/-! ### Characterisations of the operations -/


theorem GetContext_found (tid : Nat) (l : List DProfileContext) (e : ℚ) (x i : Nat)
    (h : findCtxIdx tid l = some i) :
    DProfiler.GetContext tid ⟨l, e, x⟩ = (⟨l, e, x⟩, i) := by
  simp [DProfiler.GetContext, h]

theorem GetContext_notfound (tid : Nat) (l : List DProfileContext) (e : ℚ) (x : Nat)
    (h : findCtxIdx tid l = none) :
    DProfiler.GetContext tid ⟨l, e, x⟩ =
      (⟨l ++ [⟨tid, mkSection "" x, []⟩], e, x + 1⟩, l.length) := by
  simp [DProfiler.GetContext, h]

theorem SectionPush_found (tid : Nat) (l : List DProfileContext) (e : ℚ) (x i : Nat)
    (ctx : DProfileContext) (hi : findCtxIdx tid l = some i) (hc : l[i]? = some ctx)
    (n : String) (t : ℚ) :
    DProfiler.SectionPush tid n t ⟨l, e, x⟩ =
      ⟨l.set i ⟨ctx.threadId, (pushAt ctx.toplevel ctx.current n t x).1, ctx.current ++ [n]⟩,
        e, (pushAt ctx.toplevel ctx.current n t x).2⟩ := by
  simp [DProfiler.SectionPush, GetContext_found tid l e x i hi, hc]

theorem SectionPop_found_root (tid : Nat) (l : List DProfileContext) (e : ℚ) (x i : Nat)
    (ctx : DProfileContext) (hi : findCtxIdx tid l = some i) (hc : l[i]? = some ctx)
    (hcur : ctx.current = []) (t : ℚ) :
    DProfiler.SectionPop tid t ⟨l, e, x⟩ = ⟨l, t, x⟩ := by
  simp [DProfiler.SectionPop, GetContext_found tid l t x i hi, hc, hcur]

theorem SectionPop_found_desc (tid : Nat) (l : List DProfileContext) (e : ℚ) (x i : Nat)
    (ctx : DProfileContext) (hi : findCtxIdx tid l = some i) (hc : l[i]? = some ctx)
    (hcur : ctx.current ≠ []) (t : ℚ) :
    DProfiler.SectionPop tid t ⟨l, e, x⟩ =
      ⟨l.set i ⟨ctx.threadId, popAt ctx.toplevel ctx.current t, ctx.current.dropLast⟩,
        t, x⟩ := by
  simp [DProfiler.SectionPop, GetContext_found tid l t x i hi, hc, hcur]

theorem ctxCurrent_idx (tid : Nat) (l : List DProfileContext) (e : ℚ) (x i : Nat)
    (ctx : DProfileContext) (hi : findCtxIdx tid l = some i) (hc : l[i]? = some ctx) :
    ctxCurrent tid ⟨l, e, x⟩ = some ctx.current := by
  simp [ctxCurrent, findCtx, hi, hc]

theorem ctxCurrent_some_elim {tid : Nat} {l : List DProfileContext} {e : ℚ} {x : Nat}
    {p : List String} (h : ctxCurrent tid (⟨l, e, x⟩ : ProfState) = some p) :
    ∃ i ctx, findCtxIdx tid l = some i ∧ l[i]? = some ctx ∧ ctx.current = p := by
  cases hfi : findCtxIdx tid l with
  | none =>
    exfalso
    have hn : ctxCurrent tid (⟨l, e, x⟩ : ProfState) = none := by
      simp [ctxCurrent, findCtx, hfi]
    rw [hn] at h
    exact Option.noConfusion h
  | some i =>
    cases hc : l[i]? with
    | none =>
      exfalso
      have hn : ctxCurrent tid (⟨l, e, x⟩ : ProfState) = none := by
        simp [ctxCurrent, findCtx, hfi, hc]
      rw [hn] at h
      exact Option.noConfusion h
    | some ctx =>
      rw [ctxCurrent_idx tid l e x i ctx hfi hc] at h
      cases h
      exact ⟨i, ctx, rfl, hc, rfl⟩

/-! ### Claim theorems (first group) -/

/-- C2: for every sequence of durations `d₁, …, dₙ` recorded in order by
the running-mean update of `SectionPop` (the `record` recurrence from
DProfiler.cpp lines 134-136), starting from a fresh section
(`call_count = 0`, `avg_time = 0`), the final `call_count` is `n` and the
final `avg_time` is `(Σ dᵢ)/n`, over exact real arithmetic. -/
theorem record_aggregation_law (ds : List ℝ) :
    (ds.foldl (fun p d => record p.1 p.2 d) (0, (0 : ℝ))).1 = ds.length ∧
    (ds.foldl (fun p d => record p.1 p.2 d) (0, (0 : ℝ))).2 = ds.sum / (ds.length : ℝ) := by
  obtain ⟨h1, h2⟩ := foldl_record_total ds 0 0
  refine ⟨by simpa using h1, ?_⟩
  rcases eq_or_ne ds.length 0 with hl | hl
  · have hnil : ds = [] := List.length_eq_zero.mp hl
    subst hnil
    simp
  · have hne : ((ds.length : ℕ) : ℝ) ≠ 0 := Nat.cast_ne_zero.mpr hl
    rw [eq_div_iff hne]
    simpa using h2

/-- C7: `get_or_create_child` (DProfiler.cpp lines 94-101) is idempotent:
a second lookup-or-create with the same label at the same parent returns
the same children map and the same section, and never creates a duplicate
sibling — the number of entries under the label after the call is
`max 1 (previous number)`, so a repeated push of the same label under the
same parent accumulates into the single existing section. -/
theorem getOrCreateChild_idempotent (cs : List (String × DProfileSection)) (n : String)
    (cnt cnt' : Nat) :
    getOrCreateChild (getOrCreateChild cs n cnt).1 n cnt'
      = ((getOrCreateChild cs n cnt).1, (getOrCreateChild cs n cnt).2.1, cnt') ∧
    ((getOrCreateChild cs n cnt).1.map Prod.fst).count n
      = max 1 ((cs.map Prod.fst).count n) := by
  cases hl : lookupChild cs n with
  | some s =>
    have heq : getOrCreateChild cs n cnt = (cs, s, cnt) := by simp [getOrCreateChild, hl]
    rw [heq]
    refine ⟨by simp [getOrCreateChild, hl], ?_⟩
    have hmem : n ∈ cs.map Prod.fst := isSome_of_lookupChild_some hl
    have hpos : 0 < (cs.map Prod.fst).count n := List.count_pos_iff.mpr hmem
    show (cs.map Prod.fst).count n = max 1 ((cs.map Prod.fst).count n)
    omega
  | none =>
    have heq : getOrCreateChild cs n cnt
        = (cs ++ [(n, mkSection n cnt)], mkSection n cnt, cnt + 1) := by
      simp [getOrCreateChild, hl]
    rw [heq]
    have hl2 : lookupChild (cs ++ [(n, mkSection n cnt)]) n = some (mkSection n cnt) := by
      rw [lookupChild_append_of_none hl]
      simp [lookupChild]
    refine ⟨by simp [getOrCreateChild, hl2], ?_⟩
    have hzero : (cs.map Prod.fst).count n = 0 :=
      List.count_eq_zero.mpr (not_mem_of_lookupChild_none hl)
    show ((cs ++ [(n, mkSection n cnt)]).map Prod.fst).count n
      = max 1 ((cs.map Prod.fst).count n)
    simp [List.count_append, hzero]

/-- C6: for every state in which the calling thread has a context (in
particular every reachable state in which it has pushed before) and every
label, `push(label)` followed by `pop()` restores that context's `current`
pointer to exactly what it was before the push; the pop cannot hit the
root guard because the push descended (`current ++ [label] ≠ []`). -/
theorem push_pop_restores_current (st : ProfState) (tid : Nat) (n : String) (t1 t2 : ℚ)
    (p : List String) (h : ctxCurrent tid st = some p) :
    ctxCurrent tid (DProfiler.SectionPop tid t2 (DProfiler.SectionPush tid n t1 st)) = some p := by
  obtain ⟨l, e, x⟩ := st
  obtain ⟨i, ctx, hi, hc, hp⟩ := ctxCurrent_some_elim h
  have hlt : i < l.length := findCtxIdx_lt_length hi
  obtain ⟨c0, hc0, htid0⟩ := findCtxIdx_some_getElem hi
  have htid : ctx.threadId = tid := by
    rw [hc] at hc0
    cases hc0
    exact htid0
  rw [SectionPush_found tid l e x i ctx hi hc n t1]
  have htid1 : (⟨ctx.threadId, (pushAt ctx.toplevel ctx.current n t1 x).1,
      ctx.current ++ [n]⟩ : DProfileContext).threadId = tid := htid
  have hi1 : findCtxIdx tid (l.set i ⟨ctx.threadId, (pushAt ctx.toplevel ctx.current n t1 x).1,
      ctx.current ++ [n]⟩) = some i := findCtxIdx_set htid1 hi
  have hc1 : (l.set i ⟨ctx.threadId, (pushAt ctx.toplevel ctx.current n t1 x).1,
      ctx.current ++ [n]⟩)[i]?
      = some ⟨ctx.threadId, (pushAt ctx.toplevel ctx.current n t1 x).1, ctx.current ++ [n]⟩ :=
    List.getElem?_set_self (by simpa using hlt)
  rw [SectionPop_found_desc tid _ e _ i _ hi1 hc1 (by simp)]
  have htid2 : (⟨ctx.threadId,
      popAt (pushAt ctx.toplevel ctx.current n t1 x).1 (ctx.current ++ [n]) t2,
      (ctx.current ++ [n]).dropLast⟩ : DProfileContext).threadId = tid := htid
  have hi2 : findCtxIdx tid ((l.set i ⟨ctx.threadId, (pushAt ctx.toplevel ctx.current n t1 x).1,
      ctx.current ++ [n]⟩).set i ⟨ctx.threadId,
      popAt (pushAt ctx.toplevel ctx.current n t1 x).1 (ctx.current ++ [n]) t2,
      (ctx.current ++ [n]).dropLast⟩) = some i := findCtxIdx_set htid2 hi1
  have hc2 : ((l.set i ⟨ctx.threadId, (pushAt ctx.toplevel ctx.current n t1 x).1,
      ctx.current ++ [n]⟩).set i ⟨ctx.threadId,
      popAt (pushAt ctx.toplevel ctx.current n t1 x).1 (ctx.current ++ [n]) t2,
      (ctx.current ++ [n]).dropLast⟩)[i]?
      = some ⟨ctx.threadId,
          popAt (pushAt ctx.toplevel ctx.current n t1 x).1 (ctx.current ++ [n]) t2,
          (ctx.current ++ [n]).dropLast⟩ :=
    List.getElem?_set_self (by simpa using hlt)
  rw [ctxCurrent_idx tid _ t2 _ i _ hi2 hc2]
  simp [hp]

theorem push_pop_restores_current_witness :
    ctxCurrent 0 (runTrace [Op.push 0 "A"] initState [0]) = some ["A"] ∧
    ctxCurrent 0 (DProfiler.SectionPop 0 3 (DProfiler.SectionPush 0 "B" 2
      (runTrace [Op.push 0 "A"] initState [0]))) = some ["A"] :=
  ⟨by with_unfolding_all decide,
    push_pop_restores_current _ 0 "B" 2 3 ["A"] (by with_unfolding_all decide)⟩

/-- C3: in every state in which the calling thread's current section is
the root (`current = []`, i.e. `parent == NULL`, DProfiler.cpp
lines 122-123), `SectionPop` returns without touching the registry: no
section's `call_count`, `avg_time` or `children` changes and no context's
`current` pointer changes (only the static `end_time` scratch is
written).  In particular the trace `pop(); pop(); push("X"); pop();` on a
fresh profiler yields exactly one context whose root has the single child
"X" with `call_count = 1`, and `current` back at the root. -/
theorem pop_past_root_noop (st : ProfState) (tid : Nat) (t : ℚ)
    (h : ctxCurrent tid st = some []) :
    (DProfiler.SectionPop tid t st).contexts = st.contexts ∧
    ctxCurrent tid (DProfiler.SectionPop tid t st) = some [] ∧
    sectionStats 0 ["X"] c3State = some (1, 1) ∧
    (findCtx 0 c3State).map (fun c => (c.toplevel.children.map Prod.fst, c.current))
      = some (["X"], []) ∧
    c3State.contexts.length = 1 := by
  obtain ⟨l, e, x⟩ := st
  obtain ⟨i, ctx, hi, hc, hp⟩ := ctxCurrent_some_elim h
  rw [SectionPop_found_root tid l e x i ctx hi hc hp t]
  refine ⟨rfl, ?_, by with_unfolding_all decide, by with_unfolding_all decide,
    by with_unfolding_all decide⟩
  rw [ctxCurrent_idx tid l t x i ctx hi hc, hp]

theorem pop_past_root_noop_witness :
    ctxCurrent 0 (runTrace [Op.pop 0] initState [0]) = some [] ∧
    ((DProfiler.SectionPop 0 5 (runTrace [Op.pop 0] initState [0])).contexts
        = (runTrace [Op.pop 0] initState [0]).contexts ∧
      ctxCurrent 0 (DProfiler.SectionPop 0 5 (runTrace [Op.pop 0] initState [0])) = some [] ∧
      sectionStats 0 ["X"] c3State = some (1, 1) ∧
      (findCtx 0 c3State).map (fun c => (c.toplevel.children.map Prod.fst, c.current))
        = some (["X"], []) ∧
      c3State.contexts.length = 1) :=
  ⟨by with_unfolding_all decide, pop_past_root_noop _ 0 5 (by with_unfolding_all decide)⟩

/-- C1, counterexample: with the mock clock 0, 1, 3, 4, 10 consumed in
order, one per clock sample, the trace
`push("outer"); push("inner"); pop(); pop();` performs exactly four clock
samples (one per push at DProfiler.cpp line 107, one per pop at line 115),
so the outer pop reads sample 4 and records `4 - 0 = 4` ms: Section
"outer" ends with `avg_time_ms = 4.0`, refuting the claimed
`avg_time_ms = 10.0`. -/
theorem c1_outer_avg_counterexample :
    sectionStats 0 ["outer"] c1State = some (1, 4) ∧
    sectionStats 0 ["outer"] c1State ≠ some (1, 10) :=
  ⟨by with_unfolding_all decide, by with_unfolding_all decide⟩

/-- C1, amended: with the mock clock 0, 1, 3, 4, 10 (consumed in order,
one per clock sample), the trace `push("outer"); push("inner"); pop();
pop();` on a fresh single-thread profiler leaves Section "outer" with
`call_count = 1` and `avg_time_ms = 4.0`, and Section "inner" (child of
"outer") with `call_count = 1` and `avg_time_ms = 2.0`; `current` is back
at the root. -/
theorem c1_nested_sections :
    sectionStats 0 ["outer"] c1State = some (1, 4) ∧
    sectionStats 0 ["outer", "inner"] c1State = some (1, 2) ∧
    ctxCurrent 0 c1State = some [] ∧
    c1State.contexts.length = 1 :=
  ⟨by with_unfolding_all decide, by with_unfolding_all decide,
    by with_unfolding_all decide, by with_unfolding_all decide⟩

/-! ### SectionPop on a fresh thread, and frame lemmas -/

theorem SectionPop_notfound (tid : Nat) (l : List DProfileContext) (e : ℚ) (x : Nat)
    (h : findCtxIdx tid l = none) (t : ℚ) :
    DProfiler.SectionPop tid t ⟨l, e, x⟩ = ⟨l ++ [⟨tid, mkSection "" x, []⟩], t, x + 1⟩ := by
  simp [DProfiler.SectionPop, GetContext_notfound tid l t x h, List.getElem?_concat_length]

theorem SectionPush_notfound (tid : Nat) (l : List DProfileContext) (e : ℚ) (x : Nat)
    (h : findCtxIdx tid l = none) (n : String) (t : ℚ) :
    DProfiler.SectionPush tid n t ⟨l, e, x⟩ =
      (⟨(l ++ [(⟨tid, mkSection "" x, []⟩ : DProfileContext)]).set l.length
          ⟨tid, (pushAt (mkSection "" x) [] n t (x + 1)).1, [n]⟩,
        e, (pushAt (mkSection "" x) [] n t (x + 1)).2⟩ : ProfState) := by
  simp [DProfiler.SectionPush, GetContext_notfound tid l e x h, List.getElem?_concat_length]

/-- The trace used to exhibit the frame of `SectionPop` on a two-thread
registry. -/
def c4State : ProfState :=
  runTrace [Op.push 0 "A", Op.push 1 "B"] initState [0, 1]

/-- C4, counterexample: `SectionPop` does NOT keep its stop clock sample
in a local variable — it writes the static shared member
`DProfiler::end_time` (DProfiler.cpp line 31, header lines 146-147,
written at line 115).  On a state with `end_time = 0`, a pop with clock
sample 5 changes `end_time`, i.e. it modifies profiler state beyond the
popped Section's statistics and the context's `current` pointer. -/
theorem SectionPop_writes_static_end_time :
    (DProfiler.SectionPop 0 5 (runTrace [Op.push 0 "A"] initState [0])).endTime
      ≠ (runTrace [Op.push 0 "A"] initState [0]).endTime :=
  by with_unfolding_all decide

/-- C4, amended: `SectionPop` stores its stop clock sample in the static
shared member `end_time` (not a local variable).  Beyond that write, a pop
modifies only the popped thread's registry slot (its section statistics
and `current` pointer) and whatever the registry lookup itself does (it
may create the thread's context): the stop sample `t` becomes `end_time`,
the exec counter and registry length equal what they are right after the
lookup, and every other registry slot is unchanged. -/
theorem SectionPop_frame (l : List DProfileContext) (e : ℚ) (x : Nat) (tid : Nat) (t : ℚ)
    (j : Nat) (hj : j ≠ (DProfiler.GetContext tid ⟨l, t, x⟩).2) :
    (DProfiler.SectionPop tid t ⟨l, e, x⟩).endTime = t ∧
    (DProfiler.SectionPop tid t ⟨l, e, x⟩).execCounter
      = (DProfiler.GetContext tid ⟨l, t, x⟩).1.execCounter ∧
    (DProfiler.SectionPop tid t ⟨l, e, x⟩).contexts.length
      = (DProfiler.GetContext tid ⟨l, t, x⟩).1.contexts.length ∧
    (DProfiler.SectionPop tid t ⟨l, e, x⟩).contexts[j]?
      = (DProfiler.GetContext tid ⟨l, t, x⟩).1.contexts[j]? := by
  cases hfi : findCtxIdx tid l with
  | none =>
    rw [GetContext_notfound tid l t x hfi]
    rw [SectionPop_notfound tid l e x hfi t]
    exact ⟨rfl, rfl, rfl, rfl⟩
  | some i =>
    obtain ⟨ctx, hc, -⟩ := findCtxIdx_some_getElem hfi
    rw [GetContext_found tid l t x i hfi] at hj ⊢
    by_cases hcur : ctx.current = []
    · rw [SectionPop_found_root tid l e x i ctx hfi hc hcur t]
      exact ⟨rfl, rfl, rfl, rfl⟩
    · rw [SectionPop_found_desc tid l e x i ctx hfi hc hcur t]
      exact ⟨rfl, rfl, by simp, List.getElem?_set_ne (Ne.symm hj)⟩

theorem SectionPop_frame_witness :
    (1 ≠ (DProfiler.GetContext 0 ⟨c4State.contexts, 5, c4State.execCounter⟩).2) ∧
    ((DProfiler.SectionPop 0 5 ⟨c4State.contexts, c4State.endTime, c4State.execCounter⟩).endTime
        = 5 ∧
      (DProfiler.SectionPop 0 5
            ⟨c4State.contexts, c4State.endTime, c4State.execCounter⟩).execCounter
        = (DProfiler.GetContext 0 ⟨c4State.contexts, 5, c4State.execCounter⟩).1.execCounter ∧
      (DProfiler.SectionPop 0 5
            ⟨c4State.contexts, c4State.endTime, c4State.execCounter⟩).contexts.length
        = (DProfiler.GetContext 0
            ⟨c4State.contexts, 5, c4State.execCounter⟩).1.contexts.length ∧
      (DProfiler.SectionPop 0 5
            ⟨c4State.contexts, c4State.endTime, c4State.execCounter⟩).contexts[1]?
        = (DProfiler.GetContext 0 ⟨c4State.contexts, 5, c4State.execCounter⟩).1.contexts[1]?) :=
  ⟨by with_unfolding_all decide,
    SectionPop_frame c4State.contexts c4State.endTime c4State.execCounter 0 5 1
      (by with_unfolding_all decide)⟩

/-! ### Which operations create a thread context -/

theorem findCtxIdx_set_same {c' : DProfileContext} :
    ∀ {l : List DProfileContext} {i : Nat} {c : DProfileContext}, l[i]? = some c →
      c'.threadId = c.threadId → ∀ tid, findCtxIdx tid (l.set i c') = findCtxIdx tid l := by
  intro l
  induction l with
  | nil => intro i c h _ tid; simp at h
  | cons c0 rest ih =>
    intro i c h ht tid
    cases i with
    | zero =>
      simp only [List.getElem?_cons_zero, Option.some.injEq] at h
      simp only [List.set, findCtxIdx]
      rw [ht, h]
    | succ i' =>
      simp only [List.getElem?_cons_succ] at h
      simp [List.set, findCtxIdx, ih h ht tid]

theorem findCtxIdx_isSome_append (tid : Nat) (c : DProfileContext) :
    ∀ (l : List DProfileContext),
      (findCtxIdx tid (l ++ [c])).isSome
        = ((findCtxIdx tid l).isSome || (c.threadId == tid)) := by
  intro l
  induction l with
  | nil =>
    by_cases h : c.threadId = tid
    · simp [findCtxIdx, h]
    · simp [findCtxIdx, h]
  | cons c0 rest ih =>
    by_cases h0 : c0.threadId = tid
    · simp [findCtxIdx, h0]
    · simp [findCtxIdx, h0, ih]

theorem hasCtx_SectionPush (tid tid' : Nat) (n : String) (t : ℚ) (st : ProfState) :
    hasCtx tid (DProfiler.SectionPush tid' n t st) = (hasCtx tid st || (tid' == tid)) := by
  obtain ⟨l, e, x⟩ := st
  cases hfi : findCtxIdx tid' l with
  | none =>
    rw [SectionPush_notfound tid' l e x hfi n t]
    simp only [hasCtx]
    have h1 : (l ++ [(⟨tid', mkSection "" x, []⟩ : DProfileContext)])[l.length]?
        = some ⟨tid', mkSection "" x, []⟩ := List.getElem?_concat_length _ _
    have h2 : (⟨tid', (pushAt (mkSection "" x) [] n t (x + 1)).1, [n]⟩ : DProfileContext).threadId
        = (⟨tid', mkSection "" x, []⟩ : DProfileContext).threadId := rfl
    rw [findCtxIdx_set_same h1 h2 tid, findCtxIdx_isSome_append tid _ l]
  | some i =>
    obtain ⟨ctx, hc, htid⟩ := findCtxIdx_some_getElem hfi
    rw [SectionPush_found tid' l e x i ctx hfi hc n t]
    simp only [hasCtx]
    have h2 : (⟨ctx.threadId, (pushAt ctx.toplevel ctx.current n t x).1,
        ctx.current ++ [n]⟩ : DProfileContext).threadId = ctx.threadId := rfl
    rw [findCtxIdx_set_same hc h2 tid]
    by_cases htt : tid' = tid
    · subst htt
      simp [hfi]
    · simp [htt]

theorem hasCtx_SectionPop (tid tid' : Nat) (t : ℚ) (st : ProfState) :
    hasCtx tid (DProfiler.SectionPop tid' t st) = (hasCtx tid st || (tid' == tid)) := by
  obtain ⟨l, e, x⟩ := st
  cases hfi : findCtxIdx tid' l with
  | none =>
    rw [SectionPop_notfound tid' l e x hfi t]
    simp only [hasCtx]
    rw [findCtxIdx_isSome_append tid _ l]
  | some i =>
    obtain ⟨ctx, hc, htid⟩ := findCtxIdx_some_getElem hfi
    have htail : ((findCtxIdx tid l).isSome = ((findCtxIdx tid l).isSome || (tid' == tid))) := by
      by_cases htt : tid' = tid
      · subst htt
        simp [hfi]
      · simp [htt]
    by_cases hcur : ctx.current = []
    · rw [SectionPop_found_root tid' l e x i ctx hfi hc hcur t]
      simpa only [hasCtx] using htail
    · rw [SectionPop_found_desc tid' l e x i ctx hfi hc hcur t]
      simp only [hasCtx]
      have h2 : (⟨ctx.threadId, popAt ctx.toplevel ctx.current t,
          ctx.current.dropLast⟩ : DProfileContext).threadId = ctx.threadId := rfl
      rw [findCtxIdx_set_same hc h2 tid]
      exact htail

theorem hasCtx_Clear (tid : Nat) (st : ProfState) :
    hasCtx tid (DProfiler.Clear st) = false := rfl

/-- Does this call touch the given thread (i.e. is it a push or a pop by
that thread)? -/
def Op.touches (tid : Nat) : Op → Bool
  | .push t _ => t == tid
  | .pop t => t == tid
  | .clear => false

/-- Is this call a push (by any thread)? -/
def Op.isPush : Op → Bool
  | .push _ _ => true
  | _ => false

/-- Whether the thread has performed a push or a pop since the last clear
in `ops`, starting from the flag `b` ("had a context already"). -/
def touchedFrom (tid : Nat) (ops : List Op) (b : Bool) : Bool :=
  ops.foldl (fun b o =>
    match o with
    | Op.clear => false
    | o => b || o.touches tid) b

theorem hasCtx_runTrace (tid : Nat) :
    ∀ (ops : List Op) (st : ProfState) (ts : List ℚ),
      hasCtx tid (runTrace ops st ts) = touchedFrom tid ops (hasCtx tid st) := by
  intro ops
  induction ops with
  | nil => intro st ts; rfl
  | cons o os ih =>
    intro st ts
    cases o with
    | push tid' n =>
      show hasCtx tid (runTrace os (DProfiler.SectionPush tid' n (ts.headD 0) st) ts.tail) = _
      rw [ih, hasCtx_SectionPush]
      rfl
    | pop tid' =>
      show hasCtx tid (runTrace os (DProfiler.SectionPop tid' (ts.headD 0) st) ts.tail) = _
      rw [ih, hasCtx_SectionPop]
      rfl
    | clear =>
      show hasCtx tid (runTrace os (DProfiler.Clear st) ts) = _
      rw [ih, hasCtx_Clear]
      rfl

/-- C5, counterexample: on a fresh profiler, the single-call trace
`pop()` — which contains no push at all — already creates a ThreadContext
for the calling thread, because `SectionPop` calls `GetContext`
(DProfiler.cpp line 118) before the root guard, and `GetContext` creates
a context when none exists (lines 55-62). -/
theorem pop_creates_context_counterexample :
    hasCtx 0 (runTrace [Op.pop 0] initState [5]) = true ∧
    ([Op.pop 0].countP Op.isPush) = 0 :=
  ⟨by with_unfolding_all decide, by decide⟩

/-- C5, amended: for every trace of operations on a fresh profiler, a
ThreadContext for a given thread exists in the registry if and only if
that thread has performed at least one push OR POP since the profiler
started or since the last clear — `SectionPop` also creates the context,
via `GetContext`, even when it then pops past the root. -/
theorem hasCtx_iff_touched (ops : List Op) (ts : List ℚ) (tid : Nat) :
    hasCtx tid (runTrace ops initState ts) = touchedFrom tid ops false := by
  rw [hasCtx_runTrace]
  rfl

/-! ### Display ordering (DProfiler.cpp lines 183-211) -/

/-- `enum _SORT_BY { SORT_EXECUTION, SORT_TIME }` (DProfiler.h line 141). -/
inductive SORT_BY : Type where
  | SORT_EXECUTION : SORT_BY
  | SORT_TIME : SORT_BY

/-- Total accumulated time of a section, `avg_time * call_count`
(DProfiler.cpp lines 185 and 223). -/
def totalTime (s : DProfileSection) : ℚ :=
  s.avg_time * (s.call_count : ℚ)

/-- `reverse_time_comparator` (DProfiler.cpp lines 183-186):
`a->avg_time*a->call_count > b->avg_time*b->call_count`. -/
def reverse_time_comparator (a b : DProfileSection) : Bool :=
  decide (totalTime b < totalTime a)

/-- `execution_order_comparator` (DProfiler.cpp lines 188-191):
`a->exec_order_id < b->exec_order_id`. -/
def execution_order_comparator (a b : DProfileSection) : Bool :=
  decide (a.exec_order_id < b.exec_order_id)

/-- The child ordering produced by `DProfileSection::Display`
(DProfiler.cpp lines 195-211): gather the children map's values into a
vector and `std::sort` it with the comparator selected by `sort_by`.
`std::sort(comp)` guarantees a permutation of the input in which no
element is `comp`-greater than a predecessor, i.e. a permutation pairwise
ordered by `fun a b => !comp b a`; it is modelled by `mergeSort` on that
(total) relation — `std::sort` leaves tie order unspecified and no claim
is made about ties. -/
def displayOrder (sort_by : SORT_BY) (s : DProfileSection) : List DProfileSection :=
  match sort_by with
  | .SORT_TIME =>
    (s.children.map Prod.snd).mergeSort (fun a b => !reverse_time_comparator b a)
  | .SORT_EXECUTION =>
    (s.children.map Prod.snd).mergeSort (fun a b => !execution_order_comparator b a)

/-- C9: at every level of the rendered tree, `Display` lists the children
of a Section sorted by the chosen mode: with `SORT_EXECUTION`, in
ascending `exec_order_id` (first-encounter order); with `SORT_TIME`, in
descending `avg_time * call_count` (total accumulated time).  In both
modes the displayed sequence is a permutation of the children. -/
theorem displayOrder_sorted (s : DProfileSection) :
    (displayOrder .SORT_EXECUTION s).Perm (s.children.map Prod.snd) ∧
    (displayOrder .SORT_EXECUTION s).Pairwise
      (fun a b => a.exec_order_id ≤ b.exec_order_id) ∧
    (displayOrder .SORT_TIME s).Perm (s.children.map Prod.snd) ∧
    (displayOrder .SORT_TIME s).Pairwise (fun a b => totalTime b ≤ totalTime a) := by
  have htransE : ∀ a b c : DProfileSection,
      (!execution_order_comparator b a) = true → (!execution_order_comparator c b) = true →
      (!execution_order_comparator c a) = true := by
    intro a b c hab hbc
    simp only [execution_order_comparator, Bool.not_eq_true', decide_eq_false_iff_not,
      not_lt] at hab hbc ⊢
    exact le_trans hab hbc
  have htotalE : ∀ a b : DProfileSection,
      ((!execution_order_comparator b a) || (!execution_order_comparator a b)) = true := by
    intro a b
    simp only [execution_order_comparator, Bool.or_eq_true, Bool.not_eq_true',
      decide_eq_false_iff_not, not_lt]
    omega
  have htransT : ∀ a b c : DProfileSection,
      (!reverse_time_comparator b a) = true → (!reverse_time_comparator c b) = true →
      (!reverse_time_comparator c a) = true := by
    intro a b c hab hbc
    simp only [reverse_time_comparator, Bool.not_eq_true', decide_eq_false_iff_not,
      not_lt] at hab hbc ⊢
    exact le_trans hbc hab
  have htotalT : ∀ a b : DProfileSection,
      ((!reverse_time_comparator b a) || (!reverse_time_comparator a b)) = true := by
    intro a b
    simp only [reverse_time_comparator, Bool.or_eq_true, Bool.not_eq_true',
      decide_eq_false_iff_not, not_lt]
    exact le_total (totalTime b) (totalTime a)
  have hsE := @List.sorted_mergeSort _ (fun a b => !execution_order_comparator b a)
    htransE htotalE (s.children.map Prod.snd)
  have hsT := @List.sorted_mergeSort _ (fun a b => !reverse_time_comparator b a)
    htransT htotalT (s.children.map Prod.snd)
  refine ⟨List.mergeSort_perm _ _, ?_, List.mergeSort_perm _ _, ?_⟩
  · refine hsE.imp ?_
    intro a b hab
    simpa only [execution_order_comparator, Bool.not_eq_true', decide_eq_false_iff_not,
      not_lt] using hab
  · refine hsT.imp ?_
    intro a b hab
    simpa only [reverse_time_comparator, Bool.not_eq_true', decide_eq_false_iff_not,
      not_lt] using hab

/-! ### The default label (DProfiler.h line 133) -/

/-- `SectionPush` called with no label argument; DProfiler.h line 133
declares `static void SectionPush( const std::string& name = "unlabelled
section" );`, so the call without an argument is the call with the
literal `"unlabelled section"`. -/
def DProfiler.SectionPushNoLabel (tid : Nat) (t : ℚ) (st : ProfState) : ProfState :=
  DProfiler.SectionPush tid "unlabelled section" t st

/-- C10: calling push with no label argument behaves exactly like
`push("unlabelled section")`: it is the same operation, and it creates or
resumes the child keyed `"unlabelled section"` under the current Section —
the context's `current` pointer descends to that child. -/
theorem sectionPush_default_label (st : ProfState) (tid : Nat) (t : ℚ) (p : List String)
    (h : ctxCurrent tid st = some p) :
    DProfiler.SectionPushNoLabel tid t st
      = DProfiler.SectionPush tid "unlabelled section" t st ∧
    ctxCurrent tid (DProfiler.SectionPushNoLabel tid t st)
      = some (p ++ ["unlabelled section"]) := by
  refine ⟨rfl, ?_⟩
  obtain ⟨l, e, x⟩ := st
  obtain ⟨i, ctx, hi, hc, hp⟩ := ctxCurrent_some_elim h
  obtain ⟨c0, hc0, htid0⟩ := findCtxIdx_some_getElem hi
  have htid : ctx.threadId = tid := by
    rw [hc] at hc0
    cases hc0
    exact htid0
  have hlt : i < l.length := findCtxIdx_lt_length hi
  show ctxCurrent tid (DProfiler.SectionPush tid "unlabelled section" t ⟨l, e, x⟩) = _
  rw [SectionPush_found tid l e x i ctx hi hc "unlabelled section" t]
  have htid1 : (⟨ctx.threadId,
      (pushAt ctx.toplevel ctx.current "unlabelled section" t x).1,
      ctx.current ++ ["unlabelled section"]⟩ : DProfileContext).threadId = tid := htid
  have hi1 := findCtxIdx_set htid1 hi
  have hc1 : (l.set i (⟨ctx.threadId,
      (pushAt ctx.toplevel ctx.current "unlabelled section" t x).1,
      ctx.current ++ ["unlabelled section"]⟩ : DProfileContext))[i]?
      = some ⟨ctx.threadId,
          (pushAt ctx.toplevel ctx.current "unlabelled section" t x).1,
          ctx.current ++ ["unlabelled section"]⟩ :=
    List.getElem?_set_self (by simpa using hlt)
  rw [ctxCurrent_idx tid _ e _ i _ hi1 hc1]
  simp [hp]

theorem sectionPush_default_label_witness :
    ctxCurrent 0 (runTrace [Op.push 0 "A"] initState [0]) = some ["A"] ∧
    (DProfiler.SectionPushNoLabel 0 7 (runTrace [Op.push 0 "A"] initState [0])
        = DProfiler.SectionPush 0 "unlabelled section" 7
            (runTrace [Op.push 0 "A"] initState [0]) ∧
      ctxCurrent 0 (DProfiler.SectionPushNoLabel 0 7 (runTrace [Op.push 0 "A"] initState [0]))
        = some (["A"] ++ ["unlabelled section"])) :=
  ⟨by with_unfolding_all decide,
    sectionPush_default_label _ 0 7 ["A"] (by with_unfolding_all decide)⟩

/-! ### The tree invariant

In the pointer-based C++ tree the invariant is: the sections reachable
from a root form a tree, and for every non-root section `s`,
`s.parent->children[s->name] == s`.  In the value embedding the tree shape
is intrinsic and the parent/children consistency becomes: every entry of
every `children` map stores a section whose `name` equals its key, keys
are unique within one parent (`std::map`), and the context's `current`
path addresses an existing node. -/

mutual

def DProfileSection.wf : DProfileSection → Bool
  | .mk _ _ _ _ _ ch => decide ((ch.map Prod.fst).Nodup) && wfChildren ch

def wfChildren : List (String × DProfileSection) → Bool
  | [] => true
  | (k, c) :: rest => (c.name == k) && c.wf && wfChildren rest

end

/-- Context invariant: a well-formed tree and a `current` path that
addresses an existing node. -/
def ctxWF (c : DProfileContext) : Bool :=
  c.toplevel.wf && (nodeAt? c.toplevel c.current).isSome

/-- State invariant: every registered context is well-formed. -/
def stateWF (st : ProfState) : Bool :=
  st.contexts.all ctxWF

theorem wf_mk (n : String) (cc : Nat) (av : ℚ) (id : Nat) (tm : ℚ)
    (ch : List (String × DProfileSection)) :
    (DProfileSection.mk n cc av id tm ch).wf
      = (decide ((ch.map Prod.fst).Nodup) && wfChildren ch) := by
  rw [DProfileSection.wf]

theorem setTimer_wf (s : DProfileSection) (t : ℚ) : (s.setTimer t).wf = s.wf := by
  cases s
  rfl

theorem setChildren_wf (s : DProfileSection) (ch : List (String × DProfileSection)) :
    (s.setChildren ch).wf = (decide ((ch.map Prod.fst).Nodup) && wfChildren ch) := by
  cases s
  rfl

theorem recordTime_wf (s : DProfileSection) (d : ℚ) : (s.recordTime d).wf = s.wf := by
  cases s
  rfl

theorem mkSection_wf (n : String) (id : Nat) : (mkSection n id).wf = true := by
  rw [mkSection, wf_mk]
  rfl

theorem mkSection_name (n : String) (id : Nat) : (mkSection n id).name = n := rfl

theorem wfChildren_cons (k : String) (c : DProfileSection)
    (rest : List (String × DProfileSection)) :
    wfChildren ((k, c) :: rest) = ((c.name == k) && c.wf && wfChildren rest) := by
  rw [wfChildren]

theorem wfChildren_lookup :
    ∀ {cs : List (String × DProfileSection)} {k : String} {c : DProfileSection},
      wfChildren cs = true → lookupChild cs k = some c → c.wf = true ∧ c.name = k := by
  intro cs
  induction cs with
  | nil => intro k c _ h; simp [lookupChild] at h
  | cons p rest ih =>
    intro k c hwf h
    obtain ⟨k0, c0⟩ := p
    rw [wfChildren_cons] at hwf
    simp only [Bool.and_eq_true, beq_iff_eq] at hwf
    obtain ⟨⟨hname, hc0⟩, hrest⟩ := hwf
    by_cases hk : k0 = k
    · simp only [lookupChild, if_pos hk, Option.some.injEq] at h
      subst h
      exact ⟨hc0, hname.trans hk⟩
    · simp only [lookupChild, if_neg hk] at h
      exact ih hrest h

theorem wfChildren_setChild :
    ∀ {cs : List (String × DProfileSection)} {k : String} {v : DProfileSection},
      wfChildren cs = true → v.wf = true → v.name = k →
      wfChildren (setChild cs k v) = true := by
  intro cs
  induction cs with
  | nil => intro k v _ _ _; rfl
  | cons p rest ih =>
    intro k v hwf hv hname
    obtain ⟨k0, c0⟩ := p
    rw [wfChildren_cons] at hwf
    simp only [Bool.and_eq_true, beq_iff_eq] at hwf
    obtain ⟨⟨hname0, hc0⟩, hrest⟩ := hwf
    by_cases hk : k0 = k
    · simp only [setChild, if_pos hk]
      rw [wfChildren_cons]
      simp [hname, hk, hv, hrest]
    · simp only [setChild, if_neg hk]
      rw [wfChildren_cons]
      simp [hname0, hc0, ih hrest hv hname]

theorem wfChildren_append :
    ∀ (cs ds : List (String × DProfileSection)),
      wfChildren (cs ++ ds) = (wfChildren cs && wfChildren ds) := by
  intro cs ds
  induction cs with
  | nil => simp [wfChildren]
  | cons p rest ih =>
    obtain ⟨k0, c0⟩ := p
    rw [List.cons_append, wfChildren_cons, wfChildren_cons, ih]
    simp [Bool.and_assoc]

theorem pushAt_name (s : DProfileSection) (path : List String) (n : String) (t : ℚ)
    (cnt : Nat) : (pushAt s path n t cnt).1.name = s.name := by
  cases path with
  | nil => simp [pushAt]
  | cons k rest =>
    cases hl : lookupChild s.children k with
    | some c => simp [pushAt, hl]
    | none => simp [pushAt, hl]

theorem modifyAt_name (s : DProfileSection) (path : List String)
    (f : DProfileSection → DProfileSection) (hf : ∀ c, (f c).name = c.name) :
    (modifyAt s path f).name = s.name := by
  cases path with
  | nil => simp [modifyAt, hf]
  | cons k rest =>
    cases hl : lookupChild s.children k with
    | some c => simp [modifyAt, hl]
    | none => simp [modifyAt, hl]

theorem getOrCreateChild_wf (n : String) (cnt : Nat) {cs : List (String × DProfileSection)}
    (hnd : (cs.map Prod.fst).Nodup) (hwf : wfChildren cs = true) :
    ((getOrCreateChild cs n cnt).1.map Prod.fst).Nodup ∧
    wfChildren (getOrCreateChild cs n cnt).1 = true ∧
    (getOrCreateChild cs n cnt).2.1.wf = true ∧
    (getOrCreateChild cs n cnt).2.1.name = n ∧
    lookupChild (getOrCreateChild cs n cnt).1 n = some (getOrCreateChild cs n cnt).2.1 := by
  cases hl : lookupChild cs n with
  | some c =>
    have heq : getOrCreateChild cs n cnt = (cs, c, cnt) := by simp [getOrCreateChild, hl]
    rw [heq]
    obtain ⟨hcwf, hcname⟩ := wfChildren_lookup hwf hl
    exact ⟨hnd, hwf, hcwf, hcname, hl⟩
  | none =>
    have heq : getOrCreateChild cs n cnt
        = (cs ++ [(n, mkSection n cnt)], mkSection n cnt, cnt + 1) := by
      simp [getOrCreateChild, hl]
    rw [heq]
    have hnot : n ∉ cs.map Prod.fst := not_mem_of_lookupChild_none hl
    refine ⟨?_, ?_, mkSection_wf n cnt, rfl, ?_⟩
    · simp only [List.map_append, List.map_cons, List.map_nil]
      simp [List.nodup_append, hnd, hnot]
    · rw [wfChildren_append, hwf]
      simp [wfChildren_cons, mkSection_wf, mkSection_name, wfChildren]
    · rw [lookupChild_append_of_none hl]
      simp [lookupChild]

theorem pushAt_wf :
    ∀ (path : List String) (s : DProfileSection) (n : String) (t : ℚ) (cnt : Nat),
      s.wf = true → (nodeAt? s path).isSome = true →
      (pushAt s path n t cnt).1.wf = true ∧
      (nodeAt? (pushAt s path n t cnt).1 (path ++ [n])).isSome = true := by
  intro path
  induction path with
  | nil =>
    intro s n t cnt hwf _
    obtain ⟨nm, cc, av, id, tm, ch⟩ := s
    rw [wf_mk] at hwf
    simp only [Bool.and_eq_true, decide_eq_true_eq] at hwf
    obtain ⟨hnd, hwfc⟩ := hwf
    obtain ⟨hnd', hwf', hcwf, hcname, hlook⟩ := getOrCreateChild_wf n cnt hnd hwfc
    constructor
    · rw [pushAt]
      rw [setChildren_wf]
      simp only [Bool.and_eq_true, decide_eq_true_eq]
      constructor
      · rw [setChild_keys]
        exact hnd'
      · exact wfChildren_setChild hwf' (by rw [setTimer_wf]; exact hcwf)
          (by rw [DProfileSection.setTimer_name]; exact hcname)
    · rw [pushAt]
      have hlook2 := lookupChild_setChild_self hlook
        ((getOrCreateChild ch n cnt).2.1.setTimer t)
      simp [nodeAt?, hlook2]
  | cons k rest ih =>
    intro s n t cnt hwf hnode
    obtain ⟨nm, cc, av, id, tm, ch⟩ := s
    rw [wf_mk] at hwf
    simp only [Bool.and_eq_true, decide_eq_true_eq] at hwf
    obtain ⟨hnd, hwfc⟩ := hwf
    cases hl : lookupChild ch k with
    | none =>
      exfalso
      simp only [nodeAt?, DProfileSection.children_mk] at hnode
      rw [hl] at hnode
      simp at hnode
    | some c =>
      simp only [nodeAt?, DProfileSection.children_mk] at hnode
      rw [hl] at hnode
      obtain ⟨hcwf, hcname⟩ := wfChildren_lookup hwfc hl
      obtain ⟨ihwf, ihnode⟩ := ih c n t cnt hcwf hnode
      constructor
      · rw [pushAt]
        simp only [DProfileSection.children_mk, hl]
        rw [setChildren_wf]
        simp only [Bool.and_eq_true, decide_eq_true_eq]
        constructor
        · rw [setChild_keys]
          exact hnd
        · exact wfChildren_setChild hwfc ihwf (by rw [pushAt_name]; exact hcname)
      · rw [pushAt]
        simp only [DProfileSection.children_mk, hl]
        have hlook2 := lookupChild_setChild_self hl (pushAt c rest n t cnt).1
        simp only [List.cons_append, nodeAt?, DProfileSection.setChildren_children]
        rw [hlook2]
        exact ihnode

theorem modifyAt_wf :
    ∀ (path : List String) (s : DProfileSection) (f : DProfileSection → DProfileSection),
      (∀ c, (f c).name = c.name) → (∀ c, (f c).wf = c.wf) →
      s.wf = true → (modifyAt s path f).wf = true := by
  intro path
  induction path with
  | nil =>
    intro s f hfn hfw hwf
    rw [modifyAt, hfw]
    exact hwf
  | cons k rest ih =>
    intro s f hfn hfw hwf
    obtain ⟨nm, cc, av, id, tm, ch⟩ := s
    rw [wf_mk] at hwf
    simp only [Bool.and_eq_true, decide_eq_true_eq] at hwf
    obtain ⟨hnd, hwfc⟩ := hwf
    cases hl : lookupChild ch k with
    | none => simp [modifyAt, hl, wf_mk, hnd, hwfc]
    | some c =>
      obtain ⟨hcwf, hcname⟩ := wfChildren_lookup hwfc hl
      rw [modifyAt]
      simp only [DProfileSection.children_mk, hl]
      rw [setChildren_wf]
      simp only [Bool.and_eq_true, decide_eq_true_eq]
      constructor
      · rw [setChild_keys]
        exact hnd
      · exact wfChildren_setChild hwfc (ih c f hfn hfw hcwf)
          (by rw [modifyAt_name c rest f hfn]; exact hcname)

theorem nodeAt?_modifyAt_isSome :
    ∀ (q : List String) (s : DProfileSection) (p : List String)
      (f : DProfileSection → DProfileSection), (∀ c, (f c).children = c.children) →
      (nodeAt? (modifyAt s p f) q).isSome = (nodeAt? s q).isSome := by
  intro q
  induction q with
  | nil => intro s p f _; simp [nodeAt?]
  | cons k qs ih =>
    intro s p f hf
    cases p with
    | nil =>
      show (nodeAt? (f s) (k :: qs)).isSome = (nodeAt? s (k :: qs)).isSome
      cases hl : lookupChild s.children k with
      | some c => simp [nodeAt?, hf s, hl]
      | none => simp [nodeAt?, hf s, hl]
    | cons j ps =>
      cases hl : lookupChild s.children j with
      | none => simp [modifyAt, hl]
      | some c =>
        rw [modifyAt]
        simp only [hl]
        by_cases hk : j = k
        · subst hk
          have hlook := lookupChild_setChild_self hl (modifyAt c ps f)
          simp only [nodeAt?, DProfileSection.setChildren_children, hlook, hl]
          exact ih c ps f hf
        · have hlook : lookupChild (setChild s.children j (modifyAt c ps f)) k
              = lookupChild s.children k :=
            lookupChild_setChild_ne (fun h => hk h.symm) (modifyAt c ps f)
          cases hl2 : lookupChild s.children k with
          | none => simp [nodeAt?, hlook, hl2]
          | some c2 => simp [nodeAt?, hlook, hl2]

theorem nodeAt?_dropLast_isSome :
    ∀ (p : List String) (s : DProfileSection),
      (nodeAt? s p).isSome = true → (nodeAt? s p.dropLast).isSome = true := by
  intro p
  induction p with
  | nil => intro s h; exact h
  | cons k rest ih =>
    intro s h
    cases rest with
    | nil => simp [nodeAt?]
    | cons k2 rest2 =>
      rw [List.dropLast_cons₂]
      cases hl : lookupChild s.children k with
      | none =>
        exfalso
        rw [nodeAt?, hl] at h
        simp at h
      | some c =>
        rw [nodeAt?, hl] at h ⊢
        exact ih c h

/-- C8: every operation (`SectionPush`, `SectionPop`, `Clear`) preserves
the tree invariant: for every registered context, the sections reachable
from its root form a well-formed tree — every `children` entry stores a
section whose `name` equals its key (the map rendering of
`s.parent.children[s.label] == s`), sibling keys are unique — and the
context's `current` pointer addresses an existing node of that tree. -/
theorem stateWF_preserved (st : ProfState) (tid : Nat) (n : String) (t : ℚ)
    (h : stateWF st = true) :
    stateWF (DProfiler.SectionPush tid n t st) = true ∧
    stateWF (DProfiler.SectionPop tid t st) = true ∧
    stateWF (DProfiler.Clear st) = true := by
  obtain ⟨l, e, x⟩ := st
  have hall : ∀ c ∈ l, ctxWF c = true := by
    simpa [stateWF, List.all_eq_true] using h
  refine ⟨?_, ?_, by rfl⟩
  · cases hfi : findCtxIdx tid l with
    | none =>
      rw [SectionPush_notfound tid l e x hfi n t]
      simp only [stateWF, List.all_eq_true]
      intro c hc
      rcases List.mem_or_eq_of_mem_set hc with hmem | rfl
      · rcases List.mem_append.mp hmem with hmem2 | hmem2
        · exact hall c hmem2
        · simp only [List.mem_singleton] at hmem2
          subst hmem2
          simp [ctxWF, mkSection_wf, nodeAt?]
      · have hroot : (mkSection "" x).wf = true := mkSection_wf _ _
        have hnode : (nodeAt? (mkSection "" x) []).isSome = true := rfl
        obtain ⟨hw, hn⟩ := pushAt_wf [] (mkSection "" x) n t (x + 1) hroot hnode
        simp only [ctxWF, Bool.and_eq_true]
        exact ⟨hw, by simpa using hn⟩
    | some i =>
      obtain ⟨ctx, hc0, htid0⟩ := findCtxIdx_some_getElem hfi
      rw [SectionPush_found tid l e x i ctx hfi hc0 n t]
      simp only [stateWF, List.all_eq_true]
      intro c hc
      rcases List.mem_or_eq_of_mem_set hc with hmem | rfl
      · exact hall c hmem
      · have hctx : ctxWF ctx = true := hall ctx (List.getElem?_mem hc0)
        simp only [ctxWF, Bool.and_eq_true] at hctx
        obtain ⟨hw0, hn0⟩ := hctx
        obtain ⟨hw, hn⟩ := pushAt_wf ctx.current ctx.toplevel n t x hw0 hn0
        simp only [ctxWF, Bool.and_eq_true]
        exact ⟨hw, hn⟩
  · cases hfi : findCtxIdx tid l with
    | none =>
      rw [SectionPop_notfound tid l e x hfi t]
      simp only [stateWF, List.all_eq_true]
      intro c hc
      rcases List.mem_append.mp hc with hmem | hmem
      · exact hall c hmem
      · simp only [List.mem_singleton] at hmem
        subst hmem
        simp [ctxWF, mkSection_wf, nodeAt?]
    | some i =>
      obtain ⟨ctx, hc0, htid0⟩ := findCtxIdx_some_getElem hfi
      by_cases hcur : ctx.current = []
      · rw [SectionPop_found_root tid l e x i ctx hfi hc0 hcur t]
        simp only [stateWF, List.all_eq_true]
        intro c hc
        exact hall c hc
      · rw [SectionPop_found_desc tid l e x i ctx hfi hc0 hcur t]
        simp only [stateWF, List.all_eq_true]
        intro c hc
        rcases List.mem_or_eq_of_mem_set hc with hmem | rfl
        · exact hall c hmem
        · have hctx : ctxWF ctx = true := hall ctx (List.getElem?_mem hc0)
          simp only [ctxWF, Bool.and_eq_true] at hctx
          obtain ⟨hw0, hn0⟩ := hctx
          have hwpop : (popAt ctx.toplevel ctx.current t).wf = true := by
            rw [popAt]
            exact modifyAt_wf _ _ _ (fun c => DProfileSection.recordTime_name c _)
              (fun c => recordTime_wf c _) hw0
          have hshape := nodeAt?_modifyAt_isSome ctx.current.dropLast ctx.toplevel ctx.current
            (fun c => c.recordTime (t - c.timer))
            (fun c => DProfileSection.recordTime_children c _)
          have hpref := nodeAt?_dropLast_isSome ctx.current ctx.toplevel hn0
          simp only [ctxWF, Bool.and_eq_true]
          refine ⟨hwpop, ?_⟩
          rw [popAt, hshape]
          exact hpref

theorem stateWF_preserved_witness :
    stateWF c4State = true ∧
    (stateWF (DProfiler.SectionPush 0 "B" 2 c4State) = true ∧
      stateWF (DProfiler.SectionPop 0 2 c4State) = true ∧
      stateWF (DProfiler.Clear c4State) = true) :=
  ⟨by with_unfolding_all decide,
    stateWF_preserved c4State 0 "B" 2 (by with_unfolding_all decide)⟩
